import Mathlib

/-!
Verification of the `filelog` appender of nxlog4go.

Shallow embedding of the appender's data model and operations:
* `StrToNumSuffix`, Go's `strconv.Atoi` and `time.ParseDuration` as used by
  the appender (machine integers are modelled as `Int` with explicit wrap
  at 64 bits where the source can overflow);
* `nextTime`, the rotation-deadline computation (wall-clock time is modelled
  as nanoseconds since the epoch, matching `time.Time`'s precision, with the
  64-bit wrap of `time.Duration` multiplication made explicit; the active
  time zone is a fixed offset `off` in seconds east of UTC; Unix time has no
  leap seconds);
* `FileAppender.SetOption`, the locked reconfiguration entry point;
* the `writeLoop` background task, modelled as a step function over an
  explicit event trace (message enqueue, channel close, message delivery,
  timer fire, reschedule token).
-/

/-! ## Go string and number helpers -/

/-- Characters removed by `strings.Trim(s, " \r\n")` in the source. -/
def trimCut (c : Char) : Bool := c = ' ' ∨ c = '\r' ∨ c = '\n'

/-- Go `strings.Trim(s, " \r\n")`: drop characters of the cutset from both
ends of the string. -/
def goTrim (s : String) : String :=
  String.mk (((s.data.dropWhile trimCut).reverse.dropWhile trimCut).reverse)

/-- Value of a list of decimal digit characters, most significant first. -/
def digitsVal (l : List Char) : Nat :=
  l.foldl (fun a c => a * 10 + (c.toNat - 48)) 0

/-- Largest value of a signed 64-bit integer (Go `int` on 64-bit targets). -/
def int64Max : Int := 9223372036854775807

/-- Smallest value of a signed 64-bit integer. -/
def int64Min : Int := -9223372036854775808

/-- Wrap-around of signed 64-bit arithmetic: reduce modulo `2^64` into
`[-2^63, 2^63)`. -/
def wrap64 (n : Int) : Int :=
  (n + 9223372036854775808) % 18446744073709551616 - 9223372036854775808

/-- Syntactic part of Go `strconv.Atoi`: an optional sign followed by one or
more decimal digits, nothing else; `none` on a syntax error. -/
def atoiRaw (s : String) : Option Int :=
  match s.data with
  | [] => none
  | c :: cs =>
    if c = '+' then
      if cs ≠ [] ∧ cs.all Char.isDigit then some (Int.ofNat (digitsVal cs)) else none
    else if c = '-' then
      if cs ≠ [] ∧ cs.all Char.isDigit then some (-(Int.ofNat (digitsVal cs))) else none
    else
      if (c :: cs).all Char.isDigit then some (Int.ofNat (digitsVal (c :: cs))) else none

/-- The value returned by Go `strconv.Atoi(s)` when its error is discarded,
as in `StrToNumSuffix`: `0` on a syntax error, and the value clamped to the
64-bit range on a range error (Go `ParseInt` returns the maximum-magnitude
integer of the appropriate sign together with `ErrRange`). -/
def atoi (s : String) : Int :=
  match atoiRaw s with
  | none => 0
  | some v => if v > int64Max then int64Max else if v < int64Min then int64Min else v

/-- `StrToNumSuffix` from the source: if the string is longer than one
character and ends in `G`/`g`, `M`/`m` or `K`/`k`, the suffix is stripped and
the multiplier is `mult` cubed, squared or to the first power respectively
(the Go `switch` falls through); the remaining string is parsed with
`strconv.Atoi`, its error discarded, and multiplied by the multiplier in
64-bit arithmetic. -/
def StrToNumSuffix (str : String) (mult : Int) : Int :=
  let p : Int × String :=
    if str.length > 1 then
      match str.data.getLast? with
      | some c =>
        if c = 'G' ∨ c = 'g' then
          (wrap64 (wrap64 (wrap64 (1 * mult) * mult) * mult), String.mk str.data.dropLast)
        else if c = 'M' ∨ c = 'm' then
          (wrap64 (wrap64 (1 * mult) * mult), String.mk str.data.dropLast)
        else if c = 'K' ∨ c = 'k' then
          (wrap64 (1 * mult), String.mk str.data.dropLast)
        else (1, str)
      | none => (1, str)
    else (1, str)
  wrap64 (atoi p.2 * p.1)

/-! ## Go `time.ParseDuration`

The source parses `cycle` and `clock` strings with `time.ParseDuration` and
discards the error (`dur, _ := time.ParseDuration(value)`); on error Go
returns a zero duration.  The embedding follows the stdlib algorithm: an
optional sign, the special case `"0"`, then a sequence of
`digits[.fraction]unit` items.  Fractional parts are computed with exact
integer arithmetic where Go uses `float64`; they agree on every input
appearing in this development. -/

/-- Nanoseconds per unit, as in Go's duration unit table. -/
def durUnit (u : String) : Option Int :=
  if u = "ns" then some 1
  else if u = "us" ∨ u = "µs" ∨ u = "μs" then some 1000
  else if u = "ms" then some 1000000
  else if u = "s" then some 1000000000
  else if u = "m" then some 60000000000
  else if u = "h" then some 3600000000000
  else none

/-- A character at which a duration unit token stops (start of next number). -/
def durNumCh (c : Char) : Bool := c = '.' ∨ c.isDigit

/-- One pass of Go `ParseDuration`'s item loop, with fuel bounded by the
input length; `none` is any parse error (Go then returns duration 0). -/
def parseDurItems : Nat → List Char → Option Int
  | _, [] => some 0
  | 0, _ :: _ => none
  | fuel + 1, c :: rest =>
    if ¬ durNumCh c then none
    else
      let s := c :: rest
      let ds := s.takeWhile Char.isDigit
      let s1 := s.dropWhile Char.isDigit
      let v : Nat := digitsVal ds
      if v > 9223372036854775808 then none
      else
        let fr : Nat × Nat × List Char × Bool :=
          match s1 with
          | '.' :: t =>
            (digitsVal (t.takeWhile Char.isDigit), 10 ^ (t.takeWhile Char.isDigit).length,
             t.dropWhile Char.isDigit, !(t.takeWhile Char.isDigit).isEmpty)
          | _ => (0, 1, s1, false)
        if ds.isEmpty ∧ fr.2.2.2 = false then none
        else
          let us := fr.2.2.1.takeWhile (fun ch => !durNumCh ch)
          let s3 := fr.2.2.1.dropWhile (fun ch => !durNumCh ch)
          if us.isEmpty then none
          else
            match durUnit (String.mk us) with
            | none => none
            | some unit =>
              if (v : Int) > 9223372036854775808 / unit then none
              else
                let vn : Int := v * unit + (fr.1 * unit) / fr.2.1
                if vn > 9223372036854775808 then none
                else
                  match parseDurItems fuel s3 with
                  | none => none
                  | some tl =>
                    if vn + tl > 9223372036854775808 then none else some (vn + tl)

/-- Go `time.ParseDuration(s)` in nanoseconds: `some` of the duration on
success, `none` on any parse error (including the final overflow check for
non-negative totals). -/
def parseDuration? (s : String) : Option Int :=
  let l := s.data
  let sg : Bool × List Char :=
    match l with
    | '-' :: t => (true, t)
    | '+' :: t => (false, t)
    | _ => (false, l)
  if sg.2 = ['0'] then some 0
  else if sg.2 = [] then none
  else
    match parseDurItems sg.2.length sg.2 with
    | none => none
    | some d =>
      if sg.1 then some (-d)
      else if d > int64Max then none
      else some d

/-- The duration the source observes: `dur, _ := time.ParseDuration(value)`
discards the error, and Go returns a zero duration on error. -/
def parseDuration (s : String) : Int := (parseDuration? s).getD 0

/-- Go truncating division of a duration by `time.Second`, producing the
seconds stored into `cycle`/`clock` (`int(dur / time.Second)`). -/
def durToSeconds (d : Int) : Int :=
  if 0 ≤ d then d / 1000000000 else -((-d) / 1000000000)

/-! ## The rotation deadline: `nextTime` -/

/-- `nextTime` from the source.  Time is modelled in nanoseconds since the
epoch (`time.Time`'s precision); `off` is the fixed offset of the active
time zone in seconds.  `time.Duration(cycle) * time.Second` is an int64
multiplication and wraps at 64 bits, and so does the conversion of `clock`:
if `cycle <= 0` a default cycle of 86400 is used; for `clock < 0` the
deadline is `now` plus the wrapped cycle duration; otherwise it is local
midnight of the calendar day of `now` plus the wrapped cycle duration
(`time.Date(Y, M, D, 0, 0, 0, 0, loc)` of `nextCycle`), plus the wrapped
clock duration. -/
def nextTime (cycle clock : Int) (now off : Int) : Int :=
  let cyc := if cycle ≤ 0 then 86400 else cycle
  let d := wrap64 (cyc * 1000000000)
  if clock < 0 then now + d
  else
    let nextCycle := now + d
    let mid := nextCycle - (nextCycle + off * 1000000000) % 86400000000000
    mid + wrap64 (clock * 1000000000)

/-! ## The appender state and `SetOption` -/

/-- Dynamic type of the `interface{}` argument of `SetOption`: the switches
in the source distinguish `int`, `string` and `bool`; every other dynamic
type takes the `default` branch. -/
inductive Value where
  | vInt (n : Int)
  | vStr (s : String)
  | vBool (b : Bool)
  | vOther
deriving DecidableEq

/-- Errors returned by `SetOption`: `l4g.ErrBadValue`, `l4g.ErrBadOption`,
and an I/O error surfaced from `os.MkdirAll`. -/
inductive SOErr where
  | badValue
  | badOption
  | ioError
deriving DecidableEq

/-- The mutable fields of the `FileAppender` structure together with the
knobs of its `RotateFileWriter` sink (`out`).  `resetPosts` counts the
tokens sent on the `loopReset` channel; `outMaxSize` is the sink's own
size-rotation threshold as set by `out.SetMaxSize`. -/
structure FileAppender where
  maxsize : Int
  cycle : Int
  clock : Int
  loopRunning : Bool
  resetPosts : Nat
  outFileName : String
  outFlush : Int
  outMaxBackup : Int
  outMaxSize : Int
  outHead : String
  outFoot : String
deriving DecidableEq

/-- `NewAppender` from the source: default pattern layout, `cycle = 86400`,
`clock = -1`, loop not running; the sink is created by
`NewRotateFileWriter(filename).SetMaxBackup(maxbackup)` with its remaining
knobs at their zero values. -/
def NewAppender (filename : String) (maxbackup : Int) : FileAppender :=
  { maxsize := 0, cycle := 86400, clock := -1, loopRunning := false,
    resetPosts := 0, outFileName := filename, outFlush := 0,
    outMaxBackup := maxbackup, outMaxSize := 0, outHead := "", outFoot := "" }

/-- Environment of a `SetOption` call: whether `os.MkdirAll` fails for the
`filename` case, and the outcome of the delegated `layout.SetOption` for the
`pattern`/`format`/`utc` cases (the layout is an external collaborator). -/
structure Env where
  mkdirFails : Bool
  layoutErr : String → Value → Option SOErr

/-- Post a timestamp token on `loopReset` when the write loop is running. -/
def postReset (fa : FileAppender) : FileAppender :=
  if fa.loopRunning then { fa with resetPosts := fa.resetPosts + 1 } else fa

/-- `FileAppender.SetOption` from the source, branch by branch.  Each error
return in the source happens before any mutation of that branch, so error
outcomes carry the unchanged state. -/
def setOption (fa : FileAppender) (env : Env) (name : String) (v : Value) :
    FileAppender × Option SOErr :=
  match name with
  | "filename" =>
    match v with
    | .vStr filename =>
      if filename.length ≤ 0 then (fa, some .badValue)
      else if env.mkdirFails then (fa, some .ioError)
      else ({ fa with outFileName := filename }, none)
    | _ => (fa, some .badValue)
  | "flush" =>
    match v with
    | .vInt n => ({ fa with outFlush := n }, none)
    | .vStr s => ({ fa with outFlush := StrToNumSuffix (goTrim s) 1024 }, none)
    | _ => (fa, some .badValue)
  | "maxbackup" =>
    match v with
    | .vInt n => ({ fa with outMaxBackup := n }, none)
    | .vStr s => ({ fa with outMaxBackup := StrToNumSuffix (goTrim s) 1 }, none)
    | _ => (fa, some .badValue)
  | "maxsize" =>
    match v with
    | .vInt n =>
      let fa1 : FileAppender := { fa with maxsize := n }
      (if fa1.cycle ≤ 0 then { fa1 with outMaxSize := fa1.maxsize } else fa1, none)
    | .vStr s =>
      let fa1 : FileAppender := { fa with maxsize := StrToNumSuffix (goTrim s) 1024 }
      (if fa1.cycle ≤ 0 then { fa1 with outMaxSize := fa1.maxsize } else fa1, none)
    | _ => (fa, some .badValue)
  | "pattern" => (fa, env.layoutErr name v)
  | "format" => (fa, env.layoutErr name v)
  | "utc" => (fa, env.layoutErr name v)
  | "head" =>
    match v with
    | .vStr s => ({ fa with outHead := s }, none)
    | _ => (fa, some .badValue)
  | "foot" =>
    match v with
    | .vStr s => ({ fa with outFoot := s }, none)
    | _ => (fa, some .badValue)
  | "cycle" =>
    match v with
    | .vInt n =>
      let fa1 : FileAppender := { fa with cycle := n }
      let fa2 : FileAppender :=
        if fa1.cycle ≤ 0 then { fa1 with outMaxSize := fa1.maxsize }
        else { fa1 with outMaxSize := 0 }
      (postReset fa2, none)
    | .vStr s =>
      let fa1 : FileAppender := { fa with cycle := durToSeconds (parseDuration s) }
      let fa2 : FileAppender :=
        if fa1.cycle ≤ 0 then { fa1 with outMaxSize := fa1.maxsize }
        else { fa1 with outMaxSize := 0 }
      (postReset fa2, none)
    | _ => (fa, some .badValue)
  | "clock" =>
    match v with
    | .vInt n => (postReset { fa with clock := n }, none)
    | .vStr s => (postReset { fa with clock := durToSeconds (parseDuration s) }, none)
    | _ => (fa, some .badValue)
  | "delay0" =>
    match v with
    | .vInt n => (postReset { fa with clock := n }, none)
    | .vStr s => (postReset { fa with clock := durToSeconds (parseDuration s) }, none)
    | _ => (fa, some .badValue)
  | "daily" =>
    match v with
    | .vStr s =>
      if goTrim s = "false" then (fa, none)
      else (postReset { fa with cycle := 86400, clock := 0, maxsize := 0, outMaxSize := 0 }, none)
    | .vBool b =>
      if b then (postReset { fa with cycle := 86400, clock := 0, maxsize := 0, outMaxSize := 0 }, none)
      else (fa, none)
    | _ => (fa, some .badValue)
  | _ => (fa, some .badOption)

/-- The option names recognized by the `switch` in `SetOption`. -/
def recognizedNames : List String :=
  ["filename", "flush", "maxbackup", "maxsize", "pattern", "format", "utc",
   "head", "foot", "cycle", "clock", "delay0", "daily"]

/-! ## The write loop as an event machine

`writeLoop` is a single consumer selecting over three sources: the message
channel, the rotation timer and the `loopReset` channel.  The machine below
replays an explicit trace of events against the loop.  The channel is a
FIFO buffer plus a closed flag: a Go receive yields the head with `ok =
true` while the buffer is non-empty (closed or not), and yields the
zero-value message with `ok = false` only once the channel is closed and
empty.  `enq` is a producer's `Write`, `close` is `Close`'s
`close(fa.messages)`, `deliver` is the message select case, `timer` the
timer case and `reset` the reschedule case.  The sink records the full
stream of `Write` calls; channel capacity only blocks producers and is not
modelled, and an empty file head is assumed so a rotation resets the sink
size to 0. -/

/-- A formatted message: a byte sequence. -/
abbrev Msg := List Nat

/-- Local state of the running loop together with the channel and the sink:
`buf`/`chanClosed` are the message channel, `writes` the stream of sink
`Write` calls, `size` the sink's current size, and `finishedLoop` is set
when `writeLoop` returns. -/
structure LoopState where
  buf : List Msg
  chanClosed : Bool
  finishedLoop : Bool
  writes : List Msg
  size : Int
  flushes : Nat
  rotations : Nat
  deadline : Int
deriving DecidableEq

/-- The loop state at `Init` time: empty channel, nothing written. -/
def initLoop : LoopState :=
  { buf := [], chanClosed := false, finishedLoop := false, writes := [],
    size := 0, flushes := 0, rotations := 0, deadline := 0 }

/-- Events driving the machine.  `timer` and `reset` carry the current time
observed by `time.Now()` when the event fires. -/
inductive Ev where
  | enq (m : Msg)
  | close
  | deliver
  | timer (now : Int)
  | reset (now : Int)
deriving DecidableEq

/-- Whether an event is a producer enqueue. -/
def isEnq : Ev → Bool
  | .enq _ => true
  | _ => false

/-- A call of the sink's `Write`: append to the durable stream and grow the
size counter. -/
def sinkWrite (s : LoopState) (m : Msg) : LoopState :=
  { s with writes := s.writes ++ [m], size := s.size + m.length }

/-- One event of `writeLoop` (source lines 111-143) together with the
channel operations around it.  Events that cannot fire in the source
(delivery from an open empty channel, anything after the loop returned,
an enqueue or a re-close on a closed channel) leave the state unchanged. -/
def step (off : Int) (fa : FileAppender) (s : LoopState) (e : Ev) : LoopState :=
  match e with
  | .enq m => if s.chanClosed then s else { s with buf := s.buf ++ [m] }
  | .close => if s.chanClosed then s else { s with chanClosed := true }
  | .deliver =>
    if s.finishedLoop then s
    else
      match s.buf with
      | m :: rest =>
        -- receive yields (m, ok = true): write it, flush when the channel
        -- emptied, and keep looping
        let s1 := sinkWrite { s with buf := rest } m
        if rest.isEmpty then { s1 with flushes := s1.flushes + 1 } else s1
      | [] =>
        if s.chanClosed then
          -- receive yields the zero-value message with ok = false: the loop
          -- writes it, flushes (the channel length is 0), then drains the
          -- channel writing every remaining message in order and returns
          let s1 := sinkWrite s []
          let s2 := { s1 with flushes := s1.flushes + 1 }
          { s2 with writes := s2.writes ++ s2.buf, buf := [], finishedLoop := true }
        else s
  | .timer now =>
    if s.finishedLoop then s
    else
      let s1 := { s with deadline := nextTime fa.cycle fa.clock now off }
      if fa.cycle > 0 ∧ s1.size > fa.maxsize then
        { s1 with rotations := s1.rotations + 1, size := 0 }
      else s1
  | .reset now =>
    if s.finishedLoop then s
    else { s with deadline := nextTime fa.cycle fa.clock now off }

/-- Replay a trace of events. -/
def run (off : Int) (fa : FileAppender) (s : LoopState) (evs : List Ev) : LoopState :=
  evs.foldl (step off fa) s

/-- The messages enqueued along a trace, in order. -/
def msgsOf (evs : List Ev) : List Msg :=
  evs.filterMap fun e =>
    match e with
    | .enq m => some m
    | _ => none

/-- The preamble of `writeLoop` (source lines 101-110), run before `ready`
is closed: the initial rotation check, then the first deadline is computed
and the timer armed. -/
def writeLoopPre (off : Int) (fa : FileAppender) (s : LoopState) (now : Int) :
    LoopState :=
  let s1 := if fa.cycle > 0 ∧ s.size > fa.maxsize then
              { s with rotations := s.rotations + 1, size := 0 }
            else s
  { s1 with deadline := nextTime fa.cycle fa.clock now off }

/-- `FileAppender.Init` from the source: a no-op while `loopRunning` is
already true; otherwise it sets `loopRunning`, spawns `writeLoop` and blocks
on `ready`, which the loop closes only after its preamble ran.  The `Nat`
component counts the background tasks spawned by the call. -/
def FileAppender.Init (fa : FileAppender) (ls : LoopState) (off now : Int) :
    FileAppender × LoopState × Nat :=
  if fa.loopRunning then (fa, ls, 0)
  else
    let fa1 : FileAppender := { fa with loopRunning := true }
    (fa1, writeLoopPre off fa1 ls now, 1)

/-! ## Concrete fixtures used in witnesses and counterexamples -/

/-- A freshly constructed appender, as produced by `NewAppender`. -/
def fa0 : FileAppender := NewAppender "app.log" 3

/-- A benign environment: directory creation succeeds and the layout
accepts its options. -/
def env0 : Env := { mkdirFails := false, layoutErr := fun _ _ => none }

/-- A time-cycle-mode appender used to exercise the timer events. -/
def faTest : FileAppender :=
  { NewAppender "c.log" 0 with cycle := 60, clock := -1, maxsize := 10 }

/-- A loop state whose sink size exceeds `faTest`'s threshold. -/
def lsTest : LoopState := { initLoop with size := 11 }

/-! ## Helper lemmas -/

theorem run_cons (off : Int) (fa : FileAppender) (s : LoopState) (e : Ev) (evs : List Ev) :
    run off fa s (e :: evs) = run off fa (step off fa s e) evs := rfl

theorem step_enq_proj (off : Int) (fa : FileAppender) (s : LoopState) (m : Msg)
    (h1 : s.chanClosed = false) :
    (step off fa s (Ev.enq m)).chanClosed = false
    ∧ (step off fa s (Ev.enq m)).finishedLoop = s.finishedLoop
    ∧ (step off fa s (Ev.enq m)).buf = s.buf ++ [m]
    ∧ (step off fa s (Ev.enq m)).writes = s.writes := by
  simp [step, h1]

theorem step_close_proj (off : Int) (fa : FileAppender) (s : LoopState)
    (h1 : s.chanClosed = false) :
    (step off fa s Ev.close).chanClosed = true
    ∧ (step off fa s Ev.close).finishedLoop = s.finishedLoop
    ∧ (step off fa s Ev.close).buf = s.buf
    ∧ (step off fa s Ev.close).writes = s.writes := by
  simp [step, h1]

theorem step_deliver_cons (off : Int) (fa : FileAppender) (s : LoopState) (m : Msg)
    (tl : List Msg) (hbuf : s.buf = m :: tl) (h2 : s.finishedLoop = false) :
    (step off fa s Ev.deliver).chanClosed = s.chanClosed
    ∧ (step off fa s Ev.deliver).finishedLoop = false
    ∧ (step off fa s Ev.deliver).buf = tl
    ∧ (step off fa s Ev.deliver).writes = s.writes ++ [m] := by
  simp only [step, h2, Bool.false_eq_true, if_false, hbuf, sinkWrite]
  split <;> simp

theorem step_deliver_blocked (off : Int) (fa : FileAppender) (s : LoopState)
    (hbuf : s.buf = []) (h1 : s.chanClosed = false) :
    step off fa s Ev.deliver = s := by
  by_cases h2 : s.finishedLoop = true
  · simp [step, h2]
  · simp only [Bool.not_eq_true] at h2
    simp [step, h2, hbuf, h1]

theorem step_deliver_drain (off : Int) (fa : FileAppender) (s : LoopState)
    (hbuf : s.buf = []) (h1 : s.chanClosed = true) (h2 : s.finishedLoop = false) :
    (step off fa s Ev.deliver).chanClosed = true
    ∧ (step off fa s Ev.deliver).finishedLoop = true
    ∧ (step off fa s Ev.deliver).buf = []
    ∧ (step off fa s Ev.deliver).writes = s.writes ++ [[]] := by
  simp [step, h2, hbuf, h1, sinkWrite]

theorem step_timer_proj (off : Int) (fa : FileAppender) (s : LoopState) (now : Int) :
    (step off fa s (Ev.timer now)).chanClosed = s.chanClosed
    ∧ (step off fa s (Ev.timer now)).finishedLoop = s.finishedLoop
    ∧ (step off fa s (Ev.timer now)).buf = s.buf
    ∧ (step off fa s (Ev.timer now)).writes = s.writes := by
  simp only [step]
  split
  · simp
  · split <;> simp

theorem step_reset_proj (off : Int) (fa : FileAppender) (s : LoopState) (now : Int) :
    (step off fa s (Ev.reset now)).chanClosed = s.chanClosed
    ∧ (step off fa s (Ev.reset now)).finishedLoop = s.finishedLoop
    ∧ (step off fa s (Ev.reset now)).buf = s.buf
    ∧ (step off fa s (Ev.reset now)).writes = s.writes := by
  simp only [step]
  split <;> simp

theorem step_done (off : Int) (fa : FileAppender) (s : LoopState) (e : Ev)
    (h1 : s.chanClosed = true) (h2 : s.finishedLoop = true) :
    step off fa s e = s := by
  cases e <;> simp [step, h1, h2]

/-- While the channel is open no message is lost: along any close-free
trace the stream of performed writes followed by the still-buffered
messages is exactly the previous content plus the newly enqueued messages,
in order. -/
theorem run_open (off : Int) (fa : FileAppender) :
    ∀ (evs : List Ev), (∀ e ∈ evs, e ≠ Ev.close) →
    ∀ s : LoopState, s.chanClosed = false → s.finishedLoop = false →
      (run off fa s evs).chanClosed = false
      ∧ (run off fa s evs).finishedLoop = false
      ∧ (run off fa s evs).writes ++ (run off fa s evs).buf
          = s.writes ++ s.buf ++ msgsOf evs := by
  intro evs
  induction evs with
  | nil => intro _ s h1 h2; simpa [run, msgsOf] using ⟨h1, h2⟩
  | cons e rest ih =>
    intro hne s h1 h2
    have hr : ∀ e' ∈ rest, e' ≠ Ev.close := fun e' he' => hne e' (List.mem_cons_of_mem _ he')
    rw [run_cons]
    cases e with
    | enq m =>
      obtain ⟨hc, hf, hb, hw⟩ := step_enq_proj off fa s m h1
      have H := ih hr _ hc (hf.trans h2)
      refine ⟨H.1, H.2.1, ?_⟩
      rw [H.2.2, hw, hb]
      simp [msgsOf]
    | close => exact absurd rfl (hne Ev.close (List.mem_cons_self _ _))
    | deliver =>
      cases hbuf : s.buf with
      | nil =>
        rw [step_deliver_blocked off fa s hbuf h1]
        have H := ih hr s h1 h2
        refine ⟨H.1, H.2.1, ?_⟩
        rw [H.2.2, hbuf]
        simp [msgsOf]
      | cons m tl =>
        obtain ⟨hc, hf, hb, hw⟩ := step_deliver_cons off fa s m tl hbuf h2
        have H := ih hr _ (hc.trans h1) hf
        refine ⟨H.1, H.2.1, ?_⟩
        rw [H.2.2, hw, hb]
        simp [msgsOf, List.append_assoc]
    | timer now =>
      obtain ⟨hc, hf, hb, hw⟩ := step_timer_proj off fa s now
      have H := ih hr _ (hc.trans h1) (hf.trans h2)
      refine ⟨H.1, H.2.1, ?_⟩
      rw [H.2.2, hw, hb]
      simp [msgsOf]
    | reset now =>
      obtain ⟨hc, hf, hb, hw⟩ := step_reset_proj off fa s now
      have H := ih hr _ (hc.trans h1) (hf.trans h2)
      refine ⟨H.1, H.2.1, ?_⟩
      rw [H.2.2, hw, hb]
      simp [msgsOf]

theorem run_done (off : Int) (fa : FileAppender) :
    ∀ (evs : List Ev) (s : LoopState), s.chanClosed = true → s.finishedLoop = true →
      run off fa s evs = s := by
  intro evs
  induction evs with
  | nil => intro s _ _; rfl
  | cons e rest ih =>
    intro s h1 h2
    rw [run_cons, step_done off fa s e h1 h2]
    exact ih s h1 h2

/-- After the channel is closed: either the loop has not yet observed the
closure (writes plus buffer preserved), or it has returned having written
everything buffered at closure time plus the one zero-value message. -/
theorem run_closed (off : Int) (fa : FileAppender) :
    ∀ (evs : List Ev), (∀ e ∈ evs, e ≠ Ev.close ∧ isEnq e = false) →
    ∀ s : LoopState, s.chanClosed = true → s.finishedLoop = false →
      ((run off fa s evs).finishedLoop = false
        ∧ (run off fa s evs).writes ++ (run off fa s evs).buf = s.writes ++ s.buf)
      ∨ ((run off fa s evs).finishedLoop = true
        ∧ (run off fa s evs).writes = s.writes ++ s.buf ++ [[]]) := by
  intro evs
  induction evs with
  | nil => intro _ s h1 h2; exact Or.inl ⟨h2, rfl⟩
  | cons e rest ih =>
    intro hne s h1 h2
    have hr : ∀ e' ∈ rest, e' ≠ Ev.close ∧ isEnq e' = false :=
      fun e' he' => hne e' (List.mem_cons_of_mem _ he')
    rw [run_cons]
    cases e with
    | enq m => exact absurd (hne (Ev.enq m) (List.mem_cons_self _ _)).2 (by simp [isEnq])
    | close => exact absurd rfl (hne Ev.close (List.mem_cons_self _ _)).1
    | deliver =>
      cases hbuf : s.buf with
      | nil =>
        obtain ⟨hc, hf, hb, hw⟩ := step_deliver_drain off fa s hbuf h1 h2
        rw [run_done off fa rest _ hc hf]
        refine Or.inr ⟨hf, ?_⟩
        rw [hw]
        simp
      | cons m tl =>
        obtain ⟨hc, hf, hb, hw⟩ := step_deliver_cons off fa s m tl hbuf h2
        rcases ih hr _ (hc.trans h1) hf with ⟨hf2, heq⟩ | ⟨hf2, heq⟩
        · refine Or.inl ⟨hf2, ?_⟩
          rw [heq, hw, hb]
          simp [List.append_assoc]
        · refine Or.inr ⟨hf2, ?_⟩
          rw [heq, hw, hb]
          simp [List.append_assoc]
    | timer now =>
      obtain ⟨hc, hf, hb, hw⟩ := step_timer_proj off fa s now
      rcases ih hr _ (hc.trans h1) (hf.trans h2) with ⟨hf2, heq⟩ | ⟨hf2, heq⟩
      · exact Or.inl ⟨hf2, by rw [heq, hw, hb]⟩
      · exact Or.inr ⟨hf2, by rw [heq, hw, hb]⟩
    | reset now =>
      obtain ⟨hc, hf, hb, hw⟩ := step_reset_proj off fa s now
      rcases ih hr _ (hc.trans h1) (hf.trans h2) with ⟨hf2, heq⟩ | ⟨hf2, heq⟩
      · exact Or.inl ⟨hf2, by rw [heq, hw, hb]⟩
      · exact Or.inr ⟨hf2, by rw [heq, hw, hb]⟩

/-- The full write stream after a complete shutdown: the messages enqueued
before `close`, in order, followed by the single zero-value write the loop
performs when it observes the channel closed. -/
theorem run_drain_shape (off : Int) (fa : FileAppender) (p1 p2 : List Ev)
    (h1 : ∀ e ∈ p1, e ≠ Ev.close)
    (h2 : ∀ e ∈ p2, e ≠ Ev.close ∧ isEnq e = false)
    (hfin : (run off fa initLoop (p1 ++ Ev.close :: p2)).finishedLoop = true) :
    (run off fa initLoop (p1 ++ Ev.close :: p2)).writes = msgsOf p1 ++ [[]] := by
  have hsplit : run off fa initLoop (p1 ++ Ev.close :: p2)
      = run off fa (step off fa (run off fa initLoop p1) Ev.close) p2 := by
    simp [run, List.foldl_append]
  obtain ⟨hc1, hf1, he1⟩ := run_open off fa p1 h1 initLoop rfl rfl
  obtain ⟨hc2, hf2, hb2, hw2⟩ := step_close_proj off fa (run off fa initLoop p1) hc1
  rcases run_closed off fa p2 h2 _ hc2 (hf2.trans hf1) with ⟨hf3, _⟩ | ⟨_, heq⟩
  · rw [hsplit] at hfin
    rw [hfin] at hf3
    exact absurd hf3 (by simp)
  · rw [hsplit, heq, hw2, hb2]
    have hmsg : (run off fa initLoop p1).writes ++ (run off fa initLoop p1).buf
        = msgsOf p1 := by simpa [initLoop] using he1
    rw [List.append_assoc, ← hmsg]
    simp

theorem postReset_cycle (fa : FileAppender) : (postReset fa).cycle = fa.cycle := by
  unfold postReset; split <;> rfl

theorem postReset_clock (fa : FileAppender) : (postReset fa).clock = fa.clock := by
  unfold postReset; split <;> rfl

theorem postReset_maxsize (fa : FileAppender) : (postReset fa).maxsize = fa.maxsize := by
  unfold postReset; split <;> rfl

theorem postReset_outMaxSize (fa : FileAppender) :
    (postReset fa).outMaxSize = fa.outMaxSize := by
  unfold postReset; split <;> rfl

theorem wrap64_eq_self (n : Int) (h1 : int64Min ≤ n) (h2 : n ≤ int64Max) :
    wrap64 n = n := by
  unfold wrap64
  unfold int64Min at h1
  unfold int64Max at h2
  omega

theorem atoi_digits (ds : List Char) (hne : ds ≠ [])
    (hdig : ∀ c ∈ ds, c.isDigit = true)
    (hb : (digitsVal ds : Int) ≤ int64Max) :
    atoi (String.mk ds) = digitsVal ds := by
  cases ds with
  | nil => exact absurd rfl hne
  | cons c cs =>
    have hc : c.isDigit = true := hdig c (List.mem_cons_self _ _)
    have hcp : ¬ c = '+' := fun h => by rw [h] at hc; exact absurd hc (by decide)
    have hcm : ¬ c = '-' := fun h => by rw [h] at hc; exact absurd hc (by decide)
    have hall : (c :: cs).all Char.isDigit = true := List.all_eq_true.mpr hdig
    have hraw : atoiRaw (String.mk (c :: cs)) = some (Int.ofNat (digitsVal (c :: cs))) := by
      simp only [atoiRaw]
      rw [if_neg hcp, if_neg hcm, if_pos hall]
    unfold atoi
    rw [hraw]
    show (if (Int.ofNat (digitsVal (c :: cs))) > int64Max then int64Max
          else if (Int.ofNat (digitsVal (c :: cs))) < int64Min then int64Min
          else (Int.ofNat (digitsVal (c :: cs)))) = (digitsVal (c :: cs) : Int)
    simp only [int64Max, int64Min, Int.ofNat_eq_coe] at hb ⊢
    split
    · omega
    · split <;> omega

theorem StrToNumSuffix_digits (ds : List Char) (hne : ds ≠ [])
    (hdig : ∀ c ∈ ds, c.isDigit = true)
    (hb : (digitsVal ds : Int) ≤ int64Max) :
    StrToNumSuffix (String.mk ds) 1024 = (digitsVal ds : Int) := by
  have hat := atoi_digits ds hne hdig hb
  have hnn : (0:Int) ≤ (digitsVal ds : Int) := Int.natCast_nonneg _
  have hdata : (String.mk ds).data = ds := rfl
  simp only [StrToNumSuffix, hdata]
  by_cases hl : (String.mk ds).length > 1
  · rw [if_pos hl]
    have hlast : ds.getLast? = some (ds.getLast hne) := List.getLast?_eq_getLast ds hne
    have hldig : (ds.getLast hne).isDigit = true := hdig _ (List.getLast_mem hne)
    have hG : ¬(ds.getLast hne = 'G' ∨ ds.getLast hne = 'g') := by
      rintro (h | h) <;> rw [h] at hldig <;> exact absurd hldig (by decide)
    have hM : ¬(ds.getLast hne = 'M' ∨ ds.getLast hne = 'm') := by
      rintro (h | h) <;> rw [h] at hldig <;> exact absurd hldig (by decide)
    have hK : ¬(ds.getLast hne = 'K' ∨ ds.getLast hne = 'k') := by
      rintro (h | h) <;> rw [h] at hldig <;> exact absurd hldig (by decide)
    rw [hlast]
    simp only [if_neg hG, if_neg hM, if_neg hK]
    rw [hat, mul_one]
    exact wrap64_eq_self _ (by unfold int64Min; omega) hb
  · rw [if_neg hl]
    rw [hat, mul_one]
    exact wrap64_eq_self _ (by unfold int64Min; omega) hb

theorem StrToNumSuffix_suffix (ds : List Char) (c : Char) (k : Nat) (hne : ds ≠ [])
    (hdig : ∀ ch ∈ ds, ch.isDigit = true)
    (hck : ((c = 'K' ∨ c = 'k') ∧ k = 1) ∨ ((c = 'M' ∨ c = 'm') ∧ k = 2)
      ∨ ((c = 'G' ∨ c = 'g') ∧ k = 3))
    (hb : (digitsVal ds : Int) * 1024 ^ k ≤ int64Max) :
    StrToNumSuffix (String.mk (ds ++ [c])) 1024 = (digitsVal ds : Int) * 1024 ^ k := by
  have hnn : (0:Int) ≤ (digitsVal ds : Int) := Int.natCast_nonneg _
  have hpw : (0:Int) < 1024 ^ k := by positivity
  have hb0 : (digitsVal ds : Int) ≤ int64Max :=
    le_trans (le_mul_of_one_le_right hnn (by omega)) hb
  have hmin : int64Min ≤ (digitsVal ds : Int) * 1024 ^ k :=
    le_trans (by norm_num [int64Min]) (mul_nonneg hnn (le_of_lt hpw))
  have hat := atoi_digits ds hne hdig hb0
  have hdata : (String.mk (ds ++ [c])).data = ds ++ [c] := rfl
  have hlen : (String.mk (ds ++ [c])).length > 1 := by
    have h1 : (String.mk (ds ++ [c])).length = ds.length + 1 := by
      simp [String.length]
    have h2 := List.length_pos.mpr hne
    omega
  have hlast : (ds ++ [c]).getLast? = some c := by simp
  have hdrop : (ds ++ [c]).dropLast = ds := by simp
  simp only [StrToNumSuffix, hdata]
  rw [if_pos hlen]
  simp only [hlast]
  rcases hck with ⟨hcc, hk⟩ | ⟨hcc, hk⟩ | ⟨hcc, hk⟩
  · subst hk
    have hG : ¬(c = 'G' ∨ c = 'g') := by rcases hcc with rfl | rfl <;> decide
    have hM : ¬(c = 'M' ∨ c = 'm') := by rcases hcc with rfl | rfl <;> decide
    rw [if_neg hG, if_neg hM, if_pos hcc]
    simp only [hdrop]
    rw [hat, show wrap64 (1 * 1024) = 1024 from by decide]
    rw [show ((1024:Int) ^ 1) = 1024 from by norm_num] at hb hmin ⊢
    exact wrap64_eq_self _ hmin hb
  · subst hk
    have hG : ¬(c = 'G' ∨ c = 'g') := by rcases hcc with rfl | rfl <;> decide
    rw [if_neg hG, if_pos hcc]
    simp only [hdrop]
    rw [hat, show wrap64 (wrap64 (1 * 1024) * 1024) = 1048576 from by decide]
    rw [show ((1024:Int) ^ 2) = 1048576 from by norm_num] at hb hmin ⊢
    exact wrap64_eq_self _ hmin hb
  · subst hk
    rw [if_pos hcc]
    simp only [hdrop]
    rw [hat, show wrap64 (wrap64 (wrap64 (1 * 1024) * 1024) * 1024) = 1073741824 from by decide]
    rw [show ((1024:Int) ^ 3) = 1073741824 from by norm_num] at hb hmin ⊢
    exact wrap64_eq_self _ hmin hb

theorem dropWhile_eq_self_of (p : Char → Bool) (l : List Char)
    (h : ∀ c ∈ l, p c = false) : l.dropWhile p = l := by
  cases l with
  | nil => rfl
  | cons c t =>
    rw [List.dropWhile_cons, h c (List.mem_cons_self _ _)]
    simp

theorem goTrim_eq_self (s : String) (h : ∀ c ∈ s.data, trimCut c = false) :
    goTrim s = s := by
  unfold goTrim
  rw [dropWhile_eq_self_of _ _ h,
    dropWhile_eq_self_of _ _ (fun c hc => h c (List.mem_reverse.mp hc)),
    List.reverse_reverse]

theorem atoiRaw_no_digits (l : List Char) (h : ∀ c ∈ l, c.isDigit = false) :
    atoiRaw (String.mk l) = none := by
  cases l with
  | nil => rfl
  | cons c cs =>
    have hcs : ∀ c' ∈ cs, c'.isDigit = false :=
      fun c' hc' => h c' (List.mem_cons_of_mem _ hc')
    simp only [atoiRaw]
    by_cases hp : c = '+'
    · rw [if_pos hp]
      cases cs with
      | nil => simp
      | cons d ds =>
        rw [if_neg]
        rintro ⟨-, hall⟩
        have hd := List.all_eq_true.mp hall d (List.mem_cons_self _ _)
        rw [hcs d (List.mem_cons_self _ _)] at hd
        exact absurd hd (by decide)
    · by_cases hm : c = '-'
      · rw [if_neg hp, if_pos hm]
        cases cs with
        | nil => simp
        | cons d ds =>
          rw [if_neg]
          rintro ⟨-, hall⟩
          have hd := List.all_eq_true.mp hall d (List.mem_cons_self _ _)
          rw [hcs d (List.mem_cons_self _ _)] at hd
          exact absurd hd (by decide)
      · rw [if_neg hp, if_neg hm, if_neg]
        intro hall
        have hd := List.all_eq_true.mp hall c (List.mem_cons_self _ _)
        rw [h c (List.mem_cons_self _ _)] at hd
        exact absurd hd (by decide)

/-- A string with no digit characters parses to 0: `strconv.Atoi` fails
with a syntax error on it and on its suffix-stripped variant, the error is
discarded, and `0 * num = 0`. -/
theorem StrToNumSuffix_zero (str : String) (mult : Int)
    (h : ∀ c ∈ str.data, c.isDigit = false) :
    StrToNumSuffix str mult = 0 := by
  have hdl : ∀ c ∈ str.data.dropLast, c.isDigit = false :=
    fun c hc => h c (List.dropLast_subset _ hc)
  have hz : ∀ t : String, (∀ c ∈ t.data, c.isDigit = false) → atoi t = 0 := by
    intro t ht
    have hr : atoiRaw t = none := atoiRaw_no_digits t.data ht
    unfold atoi
    rw [hr]
  have key : ∀ (num : Int) (t : String), (∀ c ∈ t.data, c.isDigit = false) →
      wrap64 (atoi t * num) = 0 := by
    intro num t ht
    rw [hz t ht, zero_mul]
    decide
  simp only [StrToNumSuffix]
  split
  · split
    · split
      · exact key _ _ hdl
      · split
        · exact key _ _ hdl
        · split
          · exact key _ _ hdl
          · exact key _ _ h
    · exact key _ _ h
  · exact key _ _ h

/-! ## Claim theorems -/

/-- C1: for every sequence of messages enqueued before `Close`, the final
file content is exactly their concatenation in enqueue order, with no
message duplicated and none lost: along any schedule in which all enqueues
precede the channel closure and the loop runs to completion, the write
stream with its final zero-value write removed is exactly the enqueued
messages in FIFO order, and the bytes written are exactly the bytes
enqueued. -/
theorem writeLoop_fifo_order (off : Int) (fa : FileAppender) (p1 p2 : List Ev)
    (h1 : ∀ e ∈ p1, e ≠ Ev.close)
    (h2 : ∀ e ∈ p2, e ≠ Ev.close ∧ isEnq e = false)
    (hfin : (run off fa initLoop (p1 ++ Ev.close :: p2)).finishedLoop = true) :
    (run off fa initLoop (p1 ++ Ev.close :: p2)).writes.dropLast = msgsOf p1
    ∧ (run off fa initLoop (p1 ++ Ev.close :: p2)).writes.flatten
        = (msgsOf p1).flatten := by
  have h := run_drain_shape off fa p1 p2 h1 h2 hfin
  rw [h]
  constructor
  · simp
  · simp

/-- Witness for C1: a concrete run with two messages enqueued before the
closure and one delivered in between. -/
theorem writeLoop_fifo_order_witness :
    (∀ e ∈ [Ev.enq [1,2], Ev.deliver, Ev.enq [3]], e ≠ Ev.close)
    ∧ (∀ e ∈ [Ev.deliver, Ev.deliver], e ≠ Ev.close ∧ isEnq e = false)
    ∧ (run 0 (NewAppender "a.log" 0) initLoop
        ([Ev.enq [1,2], Ev.deliver, Ev.enq [3]] ++ Ev.close :: [Ev.deliver, Ev.deliver])).finishedLoop = true
    ∧ (run 0 (NewAppender "a.log" 0) initLoop
        ([Ev.enq [1,2], Ev.deliver, Ev.enq [3]] ++ Ev.close :: [Ev.deliver, Ev.deliver])).writes.dropLast
        = msgsOf [Ev.enq [1,2], Ev.deliver, Ev.enq [3]]
    ∧ (run 0 (NewAppender "a.log" 0) initLoop
        ([Ev.enq [1,2], Ev.deliver, Ev.enq [3]] ++ Ev.close :: [Ev.deliver, Ev.deliver])).writes.flatten
        = (msgsOf [Ev.enq [1,2], Ev.deliver, Ev.enq [3]]).flatten :=
  ⟨by decide, by decide, by decide,
    (writeLoop_fifo_order 0 (NewAppender "a.log" 0) _ _ (by decide) (by decide) (by decide)).1,
    (writeLoop_fifo_order 0 (NewAppender "a.log" 0) _ _ (by decide) (by decide) (by decide)).2⟩

/-- C2 counterexample: the claim that the deadline is `now + cycle` seconds
for every cycle is false in the source's 64-bit duration arithmetic:
`time.Duration(cycle) * time.Second` wraps, so for the representable input
`cycle = 10^10` (settable via `SetOption("cycle", int)`) with `clock < 0`
the deadline is about 267 years before `now`, not `now` plus `10^10`
seconds. -/
theorem nextTime_overflow_cex :
    nextTime 10000000000 (-1) 0 0 ≠ 0 + 10000000000 * 1000000000
    ∧ nextTime 10000000000 (-1) 0 0 = -8446744073709551616
    ∧ nextTime 10000000000 (-1) 0 0 < 0 := by
  refine ⟨?_, ?_, ?_⟩ <;> decide

/-- C2 (amended): provided the effective cycle and the clock convert to
durations that fit a signed 64-bit nanosecond count (at most 9223372036
seconds, which covers every realistic configuration), `nextTime` uses the
default cycle 86400 when `cycle ≤ 0`; with `clock < 0` the deadline is
`now` plus the effective cycle in seconds; with `clock ≥ 0` it is local
midnight of the calendar day containing `now` plus the effective cycle (the
unique zone-aligned instant `m` with `(m + off·10^9) % 86400·10^9 = 0` in
the day before that instant), plus `clock` seconds.  Beyond that range the
64-bit duration multiplication wraps. -/
theorem nextTime_spec (cycle clock now off : Int)
    (hcy : (if cycle ≤ 0 then (86400:Int) else cycle) ≤ 9223372036)
    (hck : clock ≤ 9223372036) :
    (clock < 0 → nextTime cycle clock now off
        = now + (if cycle ≤ 0 then 86400 else cycle) * 1000000000)
    ∧ (0 ≤ clock → ∃ m : Int, (m + off * 1000000000) % 86400000000000 = 0
        ∧ m ≤ now + (if cycle ≤ 0 then 86400 else cycle) * 1000000000
        ∧ now + (if cycle ≤ 0 then 86400 else cycle) * 1000000000
            < m + 86400000000000
        ∧ nextTime cycle clock now off = m + clock * 1000000000) := by
  have hcyc1 : (1:Int) ≤ (if cycle ≤ 0 then 86400 else cycle) := by
    split <;> omega
  have hw : wrap64 ((if cycle ≤ 0 then (86400:Int) else cycle) * 1000000000)
      = (if cycle ≤ 0 then (86400:Int) else cycle) * 1000000000 :=
    wrap64_eq_self _ (by unfold int64Min; omega) (by unfold int64Max; omega)
  constructor
  · intro h
    simp only [nextTime, if_pos h]
    rw [hw]
  · intro h
    have hwc : wrap64 (clock * 1000000000) = clock * 1000000000 :=
      wrap64_eq_self _ (by unfold int64Min; omega) (by unfold int64Max; omega)
    refine ⟨now + (if cycle ≤ 0 then 86400 else cycle) * 1000000000
      - (now + (if cycle ≤ 0 then 86400 else cycle) * 1000000000
          + off * 1000000000) % 86400000000000, ?_, ?_, ?_, ?_⟩
    · omega
    · omega
    · omega
    · simp only [nextTime, if_neg (not_lt.mpr h)]
      rw [hw, hwc]

/-- Witness for the amended C2 at concrete inputs: with `cycle = 100`,
`clock = 7200`, `now` at 1000 s after the epoch and a UTC zone, the
deadline is midnight (epoch 0) plus 7200 s. -/
theorem nextTime_spec_witness :
    (0:Int) ≤ 7200 ∧ ∃ m : Int, (m + 0 * 1000000000) % 86400000000000 = 0
      ∧ m ≤ 1000000000000 + (if (100:Int) ≤ 0 then 86400 else 100) * 1000000000
      ∧ 1000000000000 + (if (100:Int) ≤ 0 then 86400 else 100) * 1000000000
          < m + 86400000000000
      ∧ nextTime 100 7200 1000000000000 0 = m + 7200 * 1000000000 :=
  ⟨by norm_num,
   (nextTime_spec 100 7200 1000000000000 0 (by norm_num) (by norm_num)).2 (by norm_num)⟩

/-- C3: while the loop runs, a timer-fire event recomputes the deadline from
the current time and rearms the timer, and calls `Rotate` exactly when
`cycle > 0` and the sink size strictly exceeds `maxsize`; a reschedule-token
event recomputes and rearms but never rotates. -/
theorem writeLoop_timer_reset_events (off : Int) (fa : FileAppender) (s : LoopState)
    (now : Int) (h : s.finishedLoop = false) :
    (step off fa s (Ev.timer now)).deadline = nextTime fa.cycle fa.clock now off
    ∧ ((step off fa s (Ev.timer now)).rotations = s.rotations + 1
        ↔ (fa.cycle > 0 ∧ s.size > fa.maxsize))
    ∧ ((step off fa s (Ev.timer now)).rotations = s.rotations
        ↔ ¬(fa.cycle > 0 ∧ s.size > fa.maxsize))
    ∧ (step off fa s (Ev.reset now)).deadline = nextTime fa.cycle fa.clock now off
    ∧ (step off fa s (Ev.reset now)).rotations = s.rotations := by
  by_cases hc : fa.cycle > 0 ∧ s.size > fa.maxsize
  · simp [step, h, hc]
  · simp [step, h, hc]

/-- Witness for C3: a time-cycle-mode appender whose sink size exceeds the
threshold when the timer fires. -/
theorem writeLoop_timer_reset_events_witness :
    lsTest.finishedLoop = false
    ∧ ((step 0 faTest lsTest (Ev.timer 500)).deadline = nextTime faTest.cycle faTest.clock 500 0
      ∧ ((step 0 faTest lsTest (Ev.timer 500)).rotations = lsTest.rotations + 1
          ↔ (faTest.cycle > 0 ∧ lsTest.size > faTest.maxsize))
      ∧ ((step 0 faTest lsTest (Ev.timer 500)).rotations = lsTest.rotations
          ↔ ¬(faTest.cycle > 0 ∧ lsTest.size > faTest.maxsize))
      ∧ (step 0 faTest lsTest (Ev.reset 500)).deadline = nextTime faTest.cycle faTest.clock 500 0
      ∧ (step 0 faTest lsTest (Ev.reset 500)).rotations = lsTest.rotations) :=
  ⟨rfl, writeLoop_timer_reset_events 0 faTest lsTest 500 rfl⟩

/-- C4: `SetOption("cycle", v)` sets the sink's size threshold to `maxsize`
when the resulting cycle is ≤ 0 and to 0 (auto-rotation disabled) when it is
positive; `SetOption("maxsize", v)` leaves the cycle unchanged and updates
the sink threshold to the new maxsize exactly when the current cycle is
≤ 0, leaving the sink threshold untouched otherwise. -/
theorem setOption_rotation_mode_exclusive (fa : FileAppender) (env : Env) (v : Value)
    (fa' : FileAppender) :
    (setOption fa env "cycle" v = (fa', none) →
        fa'.outMaxSize = if fa'.cycle ≤ 0 then fa'.maxsize else 0)
    ∧ (setOption fa env "maxsize" v = (fa', none) →
        fa'.cycle = fa.cycle
        ∧ fa'.outMaxSize = if fa.cycle ≤ 0 then fa'.maxsize else fa.outMaxSize) := by
  constructor
  · intro h
    cases v with
    | vInt n =>
      simp only [setOption, Prod.mk.injEq] at h
      obtain ⟨h1, -⟩ := h
      subst h1
      by_cases hcy : (n : Int) ≤ 0 <;>
        simp [postReset_cycle, postReset_maxsize, postReset_outMaxSize, hcy]
    | vStr s =>
      simp only [setOption, Prod.mk.injEq] at h
      obtain ⟨h1, -⟩ := h
      subst h1
      by_cases hcy : durToSeconds (parseDuration s) ≤ 0 <;>
        simp [postReset_cycle, postReset_maxsize, postReset_outMaxSize, hcy]
    | vBool b => simp [setOption] at h
    | vOther => simp [setOption] at h
  · intro h
    cases v with
    | vInt n =>
      simp only [setOption, Prod.mk.injEq] at h
      obtain ⟨h1, -⟩ := h
      subst h1
      by_cases hcy : fa.cycle ≤ 0 <;> simp [hcy]
    | vStr s =>
      simp only [setOption, Prod.mk.injEq] at h
      obtain ⟨h1, -⟩ := h
      subst h1
      by_cases hcy : fa.cycle ≤ 0 <;> simp [hcy]
    | vBool b => simp [setOption] at h
    | vOther => simp [setOption] at h

/-- Witness for C4: setting a positive cycle on a fresh appender zeroes the
sink's own threshold. -/
theorem setOption_rotation_mode_exclusive_witness :
    (setOption fa0 env0 "cycle" (Value.vInt 5)
      = ((setOption fa0 env0 "cycle" (Value.vInt 5)).1, none))
    ∧ (setOption fa0 env0 "cycle" (Value.vInt 5)).1.outMaxSize
      = (if (setOption fa0 env0 "cycle" (Value.vInt 5)).1.cycle ≤ 0
         then (setOption fa0 env0 "cycle" (Value.vInt 5)).1.maxsize else 0) :=
  ⟨by decide,
   (setOption_rotation_mode_exclusive fa0 env0 (Value.vInt 5)
      (setOption fa0 env0 "cycle" (Value.vInt 5)).1).1 (by decide)⟩

/-- C5: `SetOption("daily", v)` with a value denoting true sets, in one
locked call, `cycle = 86400`, `clock = 0`, `maxsize = 0` and the sink
threshold to 0, and posts a reschedule token exactly when the loop is
running; a value denoting false (the boolean false, or a string trimming to
"false") changes nothing and succeeds. -/
theorem setOption_daily_atomic (fa : FileAppender) (env : Env) :
    (setOption fa env "daily" (Value.vBool true)
        = (postReset { fa with cycle := 86400, clock := 0, maxsize := 0, outMaxSize := 0 }, none))
    ∧ (∀ s : String, goTrim s ≠ "false" →
        setOption fa env "daily" (Value.vStr s)
          = (postReset { fa with cycle := 86400, clock := 0, maxsize := 0, outMaxSize := 0 }, none))
    ∧ (setOption fa env "daily" (Value.vBool false) = (fa, none))
    ∧ (∀ s : String, goTrim s = "false" →
        setOption fa env "daily" (Value.vStr s) = (fa, none)) := by
  refine ⟨rfl, ?_, rfl, ?_⟩
  · intro s hs
    simp [setOption, hs]
  · intro s hs
    simp [setOption, hs]

/-- Witness for C5: the string "true" denotes true and triggers the daily
shorthand. -/
theorem setOption_daily_atomic_witness :
    goTrim "true" ≠ "false"
    ∧ setOption fa0 env0 "daily" (Value.vStr "true")
        = (postReset { fa0 with cycle := 86400, clock := 0, maxsize := 0, outMaxSize := 0 }, none) :=
  ⟨by decide, (setOption_daily_atomic fa0 env0).2.1 "true" (by decide)⟩

/-- C6 counterexample: the claim that unparseable strings yield a bad-value
error is false.  `SetOption("cycle", "bogus")` returns no error and sets
`cycle` to 0 (the swallowed `time.ParseDuration` error yields a zero
duration), changing the state of a fresh appender whose cycle was 86400;
likewise `SetOption("maxsize", "abc")` succeeds storing 0, and
`SetOption("daily", "garbage")` succeeds and acts as daily = true. -/
theorem setOption_unparseable_cex :
    (setOption fa0 env0 "cycle" (Value.vStr "bogus")).2 = none
    ∧ (setOption fa0 env0 "cycle" (Value.vStr "bogus")).1.cycle = 0
    ∧ fa0.cycle = 86400
    ∧ (setOption fa0 env0 "maxsize" (Value.vStr "abc")).2 = none
    ∧ (setOption fa0 env0 "maxsize" (Value.vStr "abc")).1.maxsize = 0
    ∧ (setOption fa0 env0 "daily" (Value.vStr "garbage")).2 = none
    ∧ (setOption fa0 env0 "daily" (Value.vStr "garbage")).1.cycle = 86400 := by
  refine ⟨?_, ?_, rfl, ?_, ?_, ?_, ?_⟩ <;> decide

/-- C6 (amended): for `cycle`, `clock`, `delay0` and `maxsize`,
`SetOption` returns a bad-value error exactly when the value's dynamic type
is unsupported (neither int nor string), and then alters no state; for
`daily` it errors exactly when the value is neither bool nor string.
Int and string values are always accepted: a string failing the duration
parse stores 0 into `cycle`/`clock`, a string with no digits stores 0 into
`maxsize`, and any daily string other than (trimmed) "false" acts as
daily = true. -/
theorem setOption_bad_value_amended (fa : FileAppender) (env : Env) :
    (∀ name : String, (name = "cycle" ∨ name = "clock" ∨ name = "delay0" ∨ name = "maxsize") →
      setOption fa env name Value.vOther = (fa, some SOErr.badValue)
      ∧ (∀ b : Bool, setOption fa env name (Value.vBool b) = (fa, some SOErr.badValue))
      ∧ (∀ n : Int, (setOption fa env name (Value.vInt n)).2 = none)
      ∧ (∀ s : String, (setOption fa env name (Value.vStr s)).2 = none))
    ∧ (∀ s : String, parseDuration? s = none →
        (setOption fa env "cycle" (Value.vStr s)).1.cycle = 0
        ∧ (setOption fa env "clock" (Value.vStr s)).1.clock = 0
        ∧ (setOption fa env "delay0" (Value.vStr s)).1.clock = 0)
    ∧ (∀ s : String, (∀ c ∈ (goTrim s).data, c.isDigit = false) →
        (setOption fa env "maxsize" (Value.vStr s)).1.maxsize = 0)
    ∧ setOption fa env "daily" Value.vOther = (fa, some SOErr.badValue)
    ∧ (∀ n : Int, setOption fa env "daily" (Value.vInt n) = (fa, some SOErr.badValue))
    ∧ (∀ b : Bool, (setOption fa env "daily" (Value.vBool b)).2 = none)
    ∧ (∀ s : String, (setOption fa env "daily" (Value.vStr s)).2 = none)
    ∧ (∀ s : String, goTrim s ≠ "false" →
        (setOption fa env "daily" (Value.vStr s)).1.cycle = 86400
        ∧ (setOption fa env "daily" (Value.vStr s)).1.maxsize = 0) := by
  refine ⟨?_, ?_, ?_, rfl, fun n => rfl, ?_, ?_, ?_⟩
  · rintro name (rfl | rfl | rfl | rfl) <;>
      exact ⟨rfl, fun b => rfl, fun n => rfl, fun s => rfl⟩
  · intro s hs
    have h0 : durToSeconds (parseDuration s) = 0 := by
      simp [parseDuration, hs, durToSeconds]
    refine ⟨?_, ?_, ?_⟩
    · simp only [setOption]
      rw [postReset_cycle]
      split <;> simp [h0]
    · simp [setOption, postReset_clock, h0]
    · simp [setOption, postReset_clock, h0]
  · intro s hs
    have h0 : StrToNumSuffix (goTrim s) 1024 = 0 := StrToNumSuffix_zero _ _ hs
    simp only [setOption]
    split <;> simp [h0]
  · intro b
    cases b <;> rfl
  · intro s
    by_cases hs : goTrim s = "false" <;> simp [setOption, hs]
  · intro s hs
    constructor
    · simp [setOption, hs, postReset_cycle]
    · simp [setOption, hs, postReset_maxsize]

/-- Witness for the amended C6: the `cycle` block instantiated, the
unparseable string "bogus" storing 0 seconds, the digitless string "abc"
storing 0 bytes, and the daily string "on" acting as true. -/
theorem setOption_bad_value_amended_witness :
    (setOption fa0 env0 "cycle" Value.vOther = (fa0, some SOErr.badValue)
      ∧ (∀ b : Bool, setOption fa0 env0 "cycle" (Value.vBool b) = (fa0, some SOErr.badValue))
      ∧ (∀ n : Int, (setOption fa0 env0 "cycle" (Value.vInt n)).2 = none)
      ∧ (∀ s : String, (setOption fa0 env0 "cycle" (Value.vStr s)).2 = none))
    ∧ parseDuration? "bogus" = none
    ∧ ((setOption fa0 env0 "cycle" (Value.vStr "bogus")).1.cycle = 0
      ∧ (setOption fa0 env0 "clock" (Value.vStr "bogus")).1.clock = 0
      ∧ (setOption fa0 env0 "delay0" (Value.vStr "bogus")).1.clock = 0)
    ∧ (∀ c ∈ (goTrim "abc").data, c.isDigit = false)
    ∧ (setOption fa0 env0 "maxsize" (Value.vStr "abc")).1.maxsize = 0
    ∧ goTrim "on" ≠ "false"
    ∧ ((setOption fa0 env0 "daily" (Value.vStr "on")).1.cycle = 86400
      ∧ (setOption fa0 env0 "daily" (Value.vStr "on")).1.maxsize = 0) :=
  ⟨(setOption_bad_value_amended fa0 env0).1 "cycle" (Or.inl rfl),
   by decide,
   (setOption_bad_value_amended fa0 env0).2.1 "bogus" (by decide),
   by decide,
   (setOption_bad_value_amended fa0 env0).2.2.1 "abc" (by decide),
   by decide,
   (setOption_bad_value_amended fa0 env0).2.2.2.2.2.2.2 "on" (by decide)⟩

/-- C7: for every option name outside the recognized set and every value,
`SetOption` returns the unsupported-option error and leaves the appender
and sink state unchanged. -/
theorem setOption_unknown_bad_option (fa : FileAppender) (env : Env) (name : String)
    (v : Value) (h : name ∉ recognizedNames) :
    setOption fa env name v = (fa, some SOErr.badOption) := by
  simp only [recognizedNames, List.mem_cons, List.not_mem_nil, or_false, not_or] at h
  unfold setOption
  split <;> simp_all

/-- Witness for C7: the name "bogus" is not recognized. -/
theorem setOption_unknown_bad_option_witness :
    "bogus" ∉ recognizedNames
    ∧ setOption fa0 env0 "bogus" (Value.vInt 1) = (fa0, some SOErr.badOption) :=
  ⟨by decide, setOption_unknown_bad_option fa0 env0 "bogus" (Value.vInt 1) (by decide)⟩

/-- C8: `Init` is idempotent: while `loopRunning` is true it returns at
once, spawning nothing and changing nothing; otherwise it sets
`loopRunning`, spawns exactly one loop task, and returns only after the
loop's preamble has run the initial rotation check (rotating exactly when
`cycle > 0` and the sink size exceeds `maxsize`) and armed the first
deadline computed by `nextTime`. -/
theorem init_idempotent (fa : FileAppender) (ls : LoopState) (off now : Int) :
    (fa.loopRunning = true → FileAppender.Init fa ls off now = (fa, ls, 0))
    ∧ (fa.loopRunning = false →
        (FileAppender.Init fa ls off now).2.2 = 1
        ∧ (FileAppender.Init fa ls off now).1 = { fa with loopRunning := true }
        ∧ (FileAppender.Init fa ls off now).2.1.deadline = nextTime fa.cycle fa.clock now off
        ∧ ((FileAppender.Init fa ls off now).2.1.rotations = ls.rotations + 1
            ↔ (fa.cycle > 0 ∧ ls.size > fa.maxsize))) := by
  constructor
  · intro h
    simp [FileAppender.Init, h]
  · intro h
    by_cases hc : fa.cycle > 0 ∧ ls.size > fa.maxsize
    · simp [FileAppender.Init, h, writeLoopPre, hc]
    · simp [FileAppender.Init, h, writeLoopPre, hc]

/-- Witness for C8: the first `Init` of a fresh appender. -/
theorem init_idempotent_witness :
    ((NewAppender "d.log" 0).loopRunning = false
      ∧ (FileAppender.Init (NewAppender "d.log" 0) initLoop 0 100).2.2 = 1
      ∧ (FileAppender.Init (NewAppender "d.log" 0) initLoop 0 100).1
          = { NewAppender "d.log" 0 with loopRunning := true }
      ∧ (FileAppender.Init (NewAppender "d.log" 0) initLoop 0 100).2.1.deadline
          = nextTime (NewAppender "d.log" 0).cycle (NewAppender "d.log" 0).clock 100 0
      ∧ ((FileAppender.Init (NewAppender "d.log" 0) initLoop 0 100).2.1.rotations
          = initLoop.rotations + 1
          ↔ ((NewAppender "d.log" 0).cycle > 0 ∧ initLoop.size > (NewAppender "d.log" 0).maxsize))) :=
  ⟨rfl, (init_idempotent (NewAppender "d.log" 0) initLoop 0 100).2 rfl⟩

/-- C9 counterexample: the claim that for every digit string `d` the result
is `d` times the multiplier is false in the source's 64-bit arithmetic:
`"9223372036854775807K"` yields the wrapped value -1024, not
9223372036854775807 * 1024. -/
theorem strToNumSuffix_overflow_cex :
    StrToNumSuffix "9223372036854775807K" 1024 = -1024
    ∧ StrToNumSuffix "9223372036854775807K" 1024 ≠ 9223372036854775807 * 1024 := by
  constructor
  · decide
  · decide

/-- C9 (amended): for every non-empty decimal digit string `d` and suffix
`K`/`k`, `M`/`m` or `G`/`g`, provided the product fits a signed 64-bit
integer, `StrToNumSuffix` returns `d` times 1024, 1024 squared or 1024
cubed respectively (so "10M" yields 10485760), a plain digit string within
range parses to its value, and `SetOption("maxsize", s)` stores the result
as `maxsize` without error. -/
theorem strToNumSuffix_amended (ds : List Char) (c : Char) (k : Nat)
    (fa : FileAppender) (env : Env) (hne : ds ≠ [])
    (hdig : ∀ ch ∈ ds, ch.isDigit = true)
    (hck : ((c = 'K' ∨ c = 'k') ∧ k = 1) ∨ ((c = 'M' ∨ c = 'm') ∧ k = 2)
      ∨ ((c = 'G' ∨ c = 'g') ∧ k = 3))
    (hb : (digitsVal ds : Int) * 1024 ^ k ≤ int64Max) :
    StrToNumSuffix (String.mk (ds ++ [c])) 1024 = (digitsVal ds : Int) * 1024 ^ k
    ∧ StrToNumSuffix (String.mk ds) 1024 = (digitsVal ds : Int)
    ∧ (setOption fa env "maxsize" (Value.vStr (String.mk (ds ++ [c])))).1.maxsize
        = (digitsVal ds : Int) * 1024 ^ k
    ∧ (setOption fa env "maxsize" (Value.vStr (String.mk (ds ++ [c])))).2 = none := by
  have hnn : (0:Int) ≤ (digitsVal ds : Int) := Int.natCast_nonneg _
  have hpw : (0:Int) < 1024 ^ k := by positivity
  have hb0 : (digitsVal ds : Int) ≤ int64Max :=
    le_trans (le_mul_of_one_le_right hnn (by omega)) hb
  have hcut : ∀ ch ∈ ds ++ [c], trimCut ch = false := by
    intro ch hch
    rcases List.mem_append.mp hch with hin | hin
    · have hd := hdig ch hin
      cases htc : trimCut ch
      · rfl
      · exfalso
        simp only [trimCut, decide_eq_true_eq] at htc
        rcases htc with rfl | rfl | rfl <;> exact absurd hd (by decide)
    · have hc1 : ch = c := by simpa using hin
      subst hc1
      rcases hck with ⟨hcc, -⟩ | ⟨hcc, -⟩ | ⟨hcc, -⟩ <;>
        rcases hcc with rfl | rfl <;> decide
  have htrim : goTrim (String.mk (ds ++ [c])) = String.mk (ds ++ [c]) :=
    goTrim_eq_self _ hcut
  have hsfx := StrToNumSuffix_suffix ds c k hne hdig hck hb
  refine ⟨hsfx, StrToNumSuffix_digits ds hne hdig hb0, ?_, ?_⟩
  · by_cases hcy : fa.cycle ≤ 0 <;> simp [setOption, hcy, htrim, hsfx]
  · by_cases hcy : fa.cycle ≤ 0 <;> simp [setOption, hcy]

/-- Witness for the amended C9: "10M" yields 10 * 1024 ^ 2 and is stored by
`SetOption("maxsize", ...)`. -/
theorem strToNumSuffix_amended_witness :
    StrToNumSuffix (String.mk (['1','0'] ++ ['M'])) 1024 = (digitsVal ['1','0'] : Int) * 1024 ^ 2
    ∧ StrToNumSuffix (String.mk ['1','0']) 1024 = (digitsVal ['1','0'] : Int)
    ∧ (setOption fa0 env0 "maxsize" (Value.vStr (String.mk (['1','0'] ++ ['M'])))).1.maxsize
        = (digitsVal ['1','0'] : Int) * 1024 ^ 2
    ∧ (setOption fa0 env0 "maxsize" (Value.vStr (String.mk (['1','0'] ++ ['M'])))).2 = none :=
  strToNumSuffix_amended ['1','0'] 'M' 2 fa0 env0 (by decide) (by decide)
    (Or.inr (Or.inl ⟨Or.inl rfl, rfl⟩)) (by decide)

/-- C10: when the loop's receive observes the channel closed, it still
writes the zero-value (empty) message to the sink before draining and
returning: every complete shutdown's write stream is the enqueued messages
followed by exactly one extra empty write. -/
theorem writeLoop_shutdown_extra_write (off : Int) (fa : FileAppender) (p1 p2 : List Ev)
    (h1 : ∀ e ∈ p1, e ≠ Ev.close)
    (h2 : ∀ e ∈ p2, e ≠ Ev.close ∧ isEnq e = false)
    (hfin : (run off fa initLoop (p1 ++ Ev.close :: p2)).finishedLoop = true) :
    (run off fa initLoop (p1 ++ Ev.close :: p2)).writes = msgsOf p1 ++ [[]] :=
  run_drain_shape off fa p1 p2 h1 h2 hfin

/-- Witness for C10: one message, then close, then two deliveries. -/
theorem writeLoop_shutdown_extra_write_witness :
    (∀ e ∈ [Ev.enq [7]], e ≠ Ev.close)
    ∧ (∀ e ∈ [Ev.deliver, Ev.deliver], e ≠ Ev.close ∧ isEnq e = false)
    ∧ (run 0 (NewAppender "b.log" 0) initLoop
        ([Ev.enq [7]] ++ Ev.close :: [Ev.deliver, Ev.deliver])).finishedLoop = true
    ∧ (run 0 (NewAppender "b.log" 0) initLoop
        ([Ev.enq [7]] ++ Ev.close :: [Ev.deliver, Ev.deliver])).writes
        = msgsOf [Ev.enq [7]] ++ [[]] :=
  ⟨by decide, by decide, by decide,
    writeLoop_shutdown_extra_write 0 (NewAppender "b.log" 0) _ _ (by decide) (by decide) (by decide)⟩
